import Mathlib

set_option maxHeartbeats 1000000

/-!
Verification of the nerka wiki server (src/main.go): sandboxed path
resolution with extension fallback, the page-lock table with timed expiry,
the anchor link annotator, and the cookie authentication phase.
Paths are modelled at the character level, faithfully to Go's `path.Clean`,
`path.Join`, `path.Dir`, `strings.HasPrefix` and `strings.TrimSpace`;
the filesystem is an abstract map from absolute paths to contents.
-/

namespace Nerka

/-- One step of Go `path.Clean`'s segment processing: skip empty and `.`
segments, pop on `..` when possible (append `..` when unrooted and nothing
to pop, drop it when rooted), push ordinary segments.  The accumulator
holds the output segments in reverse order. -/
def cleanStep (rooted : Bool) (acc : List (List Char)) (seg : List Char) : List (List Char) :=
  if seg = [] ∨ seg = ['.'] then acc
  else if seg = ['.', '.'] then
    match acc with
    | [] => if rooted then [] else [['.', '.']]
    | a :: rest => if a = ['.', '.'] then ['.', '.'] :: a :: rest else rest
  else seg :: acc

/-- Split a character list on `'/'`; `cur` is the current segment reversed. -/
def splitSlashAux : List Char → List Char → List (List Char)
  | [], cur => [cur.reverse]
  | c :: rest, cur =>
    if c = '/' then cur.reverse :: splitSlashAux rest []
    else splitSlashAux rest (c :: cur)

/-- Whether a path begins with `'/'` (Go: `path[0] == '/'`). -/
def isRooted (cs : List Char) : Bool := cs.head? == some '/'

/-- Rejoin cleaned segments with `'/'`. -/
def joinSegsL : List (List Char) → List Char
  | [] => []
  | [s] => s
  | s :: r :: rest => s ++ '/' :: joinSegsL (r :: rest)

/-- Go `path.Clean` on a character list. -/
def cleanL (cs : List Char) : List Char :=
  if cs = [] then ['.']
  else
    let segs := (splitSlashAux cs []).foldl (cleanStep (isRooted cs)) []
    let body := joinSegsL segs.reverse
    if isRooted cs then '/' :: body
    else if body = [] then ['.'] else body

/-- Go `path.Clean`. -/
def clean (s : String) : String := ⟨cleanL s.data⟩

/-- Join a nonempty element list with `'/'` (Go `strings.Join(elems, "/")`). -/
def joinStrings : List String → String
  | [] => ""
  | [s] => s
  | s :: r :: rest => s ++ ("/" ++ joinStrings (r :: rest))

/-- Go `path.Join`: drop leading empty elements, join the rest with `'/'`,
then `Clean`; all-empty input gives the empty string. -/
def goJoinList (es : List String) : String :=
  match es.dropWhile (fun e => e == "") with
  | [] => ""
  | e :: rest => clean (joinStrings (e :: rest))

/-- Go `path.Join` on two elements. -/
def goJoin (a b : String) : String := goJoinList [a, b]

/-- The part of a path up to and including its last `'/'` (empty when there
is no slash); Go `path.Split`'s first component. -/
def dirPartL (cs : List Char) : List Char :=
  (cs.reverse.dropWhile (fun c => c != '/')).reverse

/-- Go `path.Dir`: `Clean` of everything up to the final slash. -/
def goDir (s : String) : String := clean ⟨dirPartL s.data⟩

/-- Go `strings.HasPrefix s pre`. -/
def goStartsWith (s pre : String) : Bool := pre.data.isPrefixOf s.data

/-- Go `strings.HasSuffix s suf`. -/
def goEndsWith (s suf : String) : Bool := suf.data.isSuffixOf s.data

/-- Go `strings.TrimPrefix`: drop `pre` when it is a prefix, else unchanged. -/
def goTrimPre (pre s : String) : String :=
  if goStartsWith s pre then ⟨s.data.drop pre.data.length⟩ else s

/-- Go `unicode.IsSpace`: Unicode white space. -/
def goIsSpace (c : Char) : Bool :=
  (9 ≤ c.val && c.val ≤ 13) || c.val = 32 || c.val = 0x85 || c.val = 0xA0 ||
  c.val = 0x1680 || (0x2000 ≤ c.val && c.val ≤ 0x200A) ||
  c.val = 0x2028 || c.val = 0x2029 || c.val = 0x202F || c.val = 0x205F ||
  c.val = 0x3000

/-- Go `strings.TrimSpace`: trim Unicode white space from both ends. -/
def goTrimSpace (s : String) : String :=
  ⟨((s.data.dropWhile goIsSpace).reverse.dropWhile goIsSpace).reverse⟩

/-! ## Path resolution (`read`, `readExt` in main.go)

The filesystem is an abstract map from absolute file paths to contents;
`base` stands for `filepath.Abs(os.Args[1])`, the canonicalized root. -/

/-- Errors a resolution can produce: the traversal guard, or a missing
file (the error of `ioutil.ReadFile`); each carries the joined path. -/
inductive ReadError where
  | traversal (file : String)
  | notFound (file : String)
deriving DecidableEq, Repr

deriving instance DecidableEq for Except

/-- `read` from main.go: join the name onto the canonicalized root, refuse
unless the root plus `'/'` is a strict prefix of the joined path, then
read the file. -/
def read (base : String) (fs : String → Option String) (name : String) :
    Except ReadError String :=
  let file := goJoin base name
  if goStartsWith file (base ++ "/") then
    match fs file with
    | some c => Except.ok c
    | none => Except.error (ReadError.notFound file)
  else Except.error (ReadError.traversal file)

/-- `readExt` from main.go: try `name + ".md"`, then `name + ".html"`,
then `name` verbatim, returning the first success. -/
def readExt (base : String) (fs : String → Option String) (name : String) :
    Except ReadError String :=
  match read base fs (name ++ ".md") with
  | Except.ok c => Except.ok c
  | Except.error _ =>
    match read base fs (name ++ ".html") with
    | Except.ok c => Except.ok c
    | Except.error _ => read base fs name

/-- Whether a resolution succeeded. -/
def isOkE : Except ReadError String → Bool
  | Except.ok _ => true
  | Except.error _ => false

/-- The page-or-index resolution of the handler (main.go lines 457-462):
a path ending in `'/'` resolves `Join(path, "index")`, otherwise the path
itself, both with extension fallback. -/
def resolvePage (base : String) (fs : String → Option String) (urlPath : String) :
    Except ReadError String :=
  if goEndsWith urlPath "/" then readExt base fs (goJoin urlPath "index")
  else readExt base fs urlPath

/-! ## Lock table (`lockOrExtend`, `unlock`, the expiry watcher)

Lock tokens are byte slices, times are naturals (seconds); the two global
maps `locks` and `lockExpires` are modelled as functions to `Option`.
Each mutex-protected critical section appears as one state transformer. -/

/-- A lock token: the opaque bytes POSTed by the caller. -/
def Token : Type := List Nat
deriving instance DecidableEq, Repr for Token

/-- The two global maps guarded by the mutex. -/
structure LockState where
  locks : String → Option Token
  lockExpires : String → Option Nat

/-- Result of a lock-table operation. -/
inductive LockResult where
  | ok
  | conflict
deriving DecidableEq, Repr

/-- Write a page's entry into both maps. -/
def writeLock (st : LockState) (page : String) (lock : Token) (expires : Nat) :
    LockState :=
  { locks := fun p => if p = page then some lock else st.locks p,
    lockExpires := fun p => if p = page then some expires else st.lockExpires p }

/-- Delete a page's entry from both maps. -/
def removeLock (st : LockState) (page : String) : LockState :=
  { locks := fun p => if p = page then none else st.locks p,
    lockExpires := fun p => if p = page then none else st.lockExpires p }

/-- The empty lock table `main` starts with. -/
def emptyLS : LockState :=
  { locks := fun _ => none, lockExpires := fun _ => none }

/-- `lockOrExtend`'s critical section: conflict when the page is held
under a different token (and no mutation), otherwise write the token and
`now + 60` into both maps. -/
def lockOrExtend (now : Nat) (page : String) (lock : Token) (st : LockState) :
    LockResult × LockState :=
  match st.locks page with
  | some currentLock =>
    if currentLock = lock then (LockResult.ok, writeLock st page lock (now + 60))
    else (LockResult.conflict, st)
  | none => (LockResult.ok, writeLock st page lock (now + 60))

/-- `unlock`'s critical section: conflict when the page is held under a
different token (and no mutation), otherwise delete from both maps. -/
def unlock (page : String) (lock : Token) (st : LockState) :
    LockResult × LockState :=
  match st.locks page with
  | some currentLock =>
    if currentLock = lock then (LockResult.ok, removeLock st page)
    else (LockResult.conflict, st)
  | none => (LockResult.ok, removeLock st page)

/-- The live expiry the watcher reads under the mutex; a missing entry
reads as Go's zero time. -/
def lookupExpiresZ (st : LockState) (page : String) : Nat :=
  (st.lockExpires page).getD 0

/-- One iteration of the expiry watcher's critical section (main.go lines
321-330): re-read the live `lockExpires[page]`; when it is strictly in the
past, delete the page from both maps and stop (`true`), otherwise leave the
table alone and sleep again (`false`). -/
def watcherStep (now : Nat) (page : String) (st : LockState) : LockState × Bool :=
  if lookupExpiresZ st page < now then (removeLock st page, true)
  else (st, false)

/-- The two maps agree on which pages are present. -/
def inSync (st : LockState) : Prop :=
  ∀ p, (st.locks p).isSome = (st.lockExpires p).isSome

/-! ## Link annotator (main.go lines 512-569)

URL parsing (`net/url`) is an external collaborator, taken as an abstract
`parse` function yielding a host and a path component. -/

/-- The pieces of a parsed URL reference the annotator looks at. -/
structure URLRef where
  host : String
  path : String
deriving DecidableEq, Repr

/-- An HTML attribute (key and value) of an anchor node. -/
structure Attribute where
  key : String
  val : String
deriving DecidableEq, Repr

/-- The attribute loop of the annotator: walk the anchor's attributes; on
an `href`, a parse failure marks broken, a nonempty host marks external,
and a same-site target marks broken exactly when neither the target nor
its `index` resolves; each marking breaks out of the loop.  Returns the
`(broken, external)` flag pair. -/
def classifyLoop (parse : String → Option URLRef) (base : String)
    (fs : String → Option String) (urlPath : String) :
    List Attribute → Bool × Bool
  | [] => (false, false)
  | attr :: rest =>
    if attr.key = "href" then
      match parse attr.val with
      | none => (true, false)
      | some link =>
        if 0 < link.host.length then (false, true)
        else if (!isOkE (readExt base fs (goJoinList [goDir urlPath, link.path])) &&
            !isOkE (readExt base fs (goJoinList [goDir urlPath, link.path, "index"]))) then
          (true, false)
        else classifyLoop parse base fs urlPath rest
    else classifyLoop parse base fs urlPath rest

/-- The three-way classification of an anchor. -/
inductive LinkClass where
  | ordinary
  | broken
  | external
deriving DecidableEq, Repr

/-- The classification the flag pair denotes. -/
def linkClass (parse : String → Option URLRef) (base : String)
    (fs : String → Option String) (urlPath : String) (attrs : List Attribute) :
    LinkClass :=
  match classifyLoop parse base fs urlPath attrs with
  | (true, _) => LinkClass.broken
  | (false, true) => LinkClass.external
  | (false, false) => LinkClass.ordinary

/-- Append a class token to the first `class` attribute's value (separated
by a space); `none` when no `class` attribute exists. -/
def appendClassGo (cls : String) : List Attribute → Option (List Attribute)
  | [] => none
  | a :: rest =>
    if a.key = "class" then some ({ a with val := a.val ++ (" " ++ cls) } :: rest)
    else (appendClassGo cls rest).map (a :: ·)

/-- The annotator's class write: append to the existing `class` attribute,
or append a fresh `class` attribute at the end when none exists. -/
def addClassGo (cls : String) (attrs : List Attribute) : List Attribute :=
  (appendClassGo cls attrs).getD (attrs ++ [{ key := "class", val := cls }])

/-- Annotate one anchor's attribute list: classify, then write
`broken-link` and/or `external-link` as the flags dictate. -/
def annotateAnchor (parse : String → Option URLRef) (base : String)
    (fs : String → Option String) (urlPath : String) (attrs : List Attribute) :
    List Attribute :=
  let bc := classifyLoop parse base fs urlPath attrs
  let a1 := if bc.1 then addClassGo "broken-link" attrs else attrs
  if bc.2 then addClassGo "external-link" a1 else a1

/-! ## Authentication phase (main.go lines 351-372) -/

/-- What the early phase of `handle` does with a request: set the cookie
and redirect (the `/.auth/` route), deny with a status and body, or fall
through to normal request processing. -/
inductive AuthOutcome where
  | setCookie (token : String) (status : Nat)
  | deny (status : Nat) (body : String)
  | proceed
deriving DecidableEq, Repr

/-- The cookie-setting route and the auth check of `handle`: a path under
`/.auth/` sets the cookie and answers 303; otherwise, when `.auth` reads
successfully, the request proceeds only with a `nerka` cookie equal to the
trimmed contents, else it is denied with 403 and body `"no"`. -/
def authPhase (base : String) (fs : String → Option String) (urlPath : String)
    (cookie : Option String) : AuthOutcome :=
  if goStartsWith urlPath "/.auth/" then
    AuthOutcome.setCookie (goTrimPre "/.auth/" urlPath) 303
  else
    match read base fs ".auth" with
    | Except.ok auth =>
      match cookie with
      | none => AuthOutcome.deny 403 "no"
      | some v =>
        if v = goTrimSpace auth then AuthOutcome.proceed
        else AuthOutcome.deny 403 "no"
    | Except.error _ => AuthOutcome.proceed

/-! ## Helper lemmas: lock table -/

/-- A concrete table: `"p"` locked by token `[65]`, expiry `10`. -/
def stA : LockState :=
  { locks := fun p => if p = "p" then some [65] else none,
    lockExpires := fun p => if p = "p" then some 10 else none }

theorem removeLock_absent {st : LockState} {page : String}
    (h1 : st.locks page = none) (h2 : st.lockExpires page = none) :
    removeLock st page = st := by
  cases st with
  | mk l e =>
    simp only [removeLock]
    congr 1
    · funext p
      by_cases hp : p = page
      · subst hp; simp only [if_pos rfl]; exact h1.symm
      · simp only [if_neg hp]
    · funext p
      by_cases hp : p = page
      · subst hp; simp only [if_pos rfl]; exact h2.symm
      · simp only [if_neg hp]

theorem inSync_writeLock {st : LockState} (page : String) (lock : Token)
    (expires : Nat) (h : inSync st) : inSync (writeLock st page lock expires) := by
  intro p
  by_cases hp : p = page <;> simp [writeLock, hp, h p]

theorem inSync_removeLock {st : LockState} (page : String)
    (h : inSync st) : inSync (removeLock st page) := by
  intro p
  by_cases hp : p = page <;> simp [removeLock, hp, h p]

/-! ## Lock-table claims -/

/-- C2: `lockOrExtend` on an unlocked page creates the entry with expiry
`now + 60`; on a page locked under the same token it rewrites the entry in
place with expiry `now + 60`; on a page locked under a different token it
returns a conflict and leaves the whole table untouched. -/
theorem C2_lockOrExtend_cases (st : LockState) (now : Nat) (page : String)
    (lock : Token) :
    (st.locks page = none →
      lockOrExtend now page lock st = (LockResult.ok, writeLock st page lock (now + 60)) ∧
      (lockOrExtend now page lock st).2.locks page = some lock ∧
      (lockOrExtend now page lock st).2.lockExpires page = some (now + 60)) ∧
    (st.locks page = some lock →
      lockOrExtend now page lock st = (LockResult.ok, writeLock st page lock (now + 60)) ∧
      (lockOrExtend now page lock st).2.locks page = some lock ∧
      (lockOrExtend now page lock st).2.lockExpires page = some (now + 60) ∧
      ∀ q, q ≠ page →
        (lockOrExtend now page lock st).2.locks q = st.locks q ∧
        (lockOrExtend now page lock st).2.lockExpires q = st.lockExpires q) ∧
    (∀ cur, st.locks page = some cur → cur ≠ lock →
      lockOrExtend now page lock st = (LockResult.conflict, st)) := by
  refine ⟨?_, ?_, ?_⟩
  · intro h
    simp [lockOrExtend, h, writeLock]
  · intro h
    refine ⟨by simp [lockOrExtend, h], by simp [lockOrExtend, h, writeLock],
      by simp [lockOrExtend, h, writeLock], ?_⟩
    intro q hq
    simp [lockOrExtend, h, writeLock, hq]
  · intro cur h hne
    simp [lockOrExtend, h, hne]

/-- C2 witness: with `"p"` locked by token `[65]` and expiry `10`, a call
with token `[66]` conflicts and changes nothing, and a call on an empty
table creates the entry. -/
theorem C2_lockOrExtend_cases_w :
    lockOrExtend 3 "p" [66] stA = (LockResult.conflict, stA) ∧
    (lockOrExtend 0 "q" [1] emptyLS).2.locks "q" = some [1] ∧
    (lockOrExtend 0 "q" [1] emptyLS).2.lockExpires "q" = some 60 := by
  refine ⟨?_, ?_, ?_⟩
  · exact (C2_lockOrExtend_cases stA 3 "p" [66]).2.2 [65] (by decide) (by decide)
  · exact ((C2_lockOrExtend_cases emptyLS 0 "q" [1]).1 rfl).2.1
  · exact ((C2_lockOrExtend_cases emptyLS 0 "q" [1]).1 rfl).2.2

/-- C5: `unlock` on an unlocked page succeeds as a no-op; on a page held
under a different token it conflicts and leaves the table untouched; on a
page held under the matching token it removes the entry from both maps and
touches no other page. -/
theorem C5_unlock_cases (st : LockState) (page : String) (lock : Token) :
    (st.locks page = none → st.lockExpires page = none →
      unlock page lock st = (LockResult.ok, st)) ∧
    (∀ cur, st.locks page = some cur → cur ≠ lock →
      unlock page lock st = (LockResult.conflict, st)) ∧
    (st.locks page = some lock →
      unlock page lock st = (LockResult.ok, removeLock st page) ∧
      (unlock page lock st).2.locks page = none ∧
      (unlock page lock st).2.lockExpires page = none ∧
      ∀ q, q ≠ page →
        (unlock page lock st).2.locks q = st.locks q ∧
        (unlock page lock st).2.lockExpires q = st.lockExpires q) := by
  refine ⟨?_, ?_, ?_⟩
  · intro h1 h2
    simp [unlock, h1, removeLock_absent h1 h2]
  · intro cur h hne
    simp [unlock, h, hne]
  · intro h
    refine ⟨by simp [unlock, h], by simp [unlock, h, removeLock],
      by simp [unlock, h, removeLock], ?_⟩
    intro q hq
    simp [unlock, h, removeLock, hq]

/-- C5 witness: releasing `"p"` with the wrong token `[66]` conflicts and
keeps `[65]`'s lock; releasing with `[65]` removes it; releasing an
unlocked page is a no-op. -/
theorem C5_unlock_cases_w :
    unlock "p" [66] stA = (LockResult.conflict, stA) ∧
    (unlock "p" [65] stA).2.locks "p" = none ∧
    (unlock "p" [65] stA).2.lockExpires "p" = none ∧
    unlock "q" [1] emptyLS = (LockResult.ok, emptyLS) := by
  refine ⟨?_, ?_, ?_, ?_⟩
  · exact (C5_unlock_cases stA "p" [66]).2.1 [65] (by decide) (by decide)
  · exact ((C5_unlock_cases stA "p" [65]).2.2 (by decide)).2.1
  · exact ((C5_unlock_cases stA "p" [65]).2.2 (by decide)).2.2.1
  · exact (C5_unlock_cases emptyLS "q" [1]).1 rfl rfl

/-- C3: the expiry watcher's critical section re-reads the live expiry
under the mutex and leaves the table untouched whenever that value is not
yet past (in particular when it was pushed forward after the watcher was
scheduled); when the live expiry is past it deletes the entry from both
maps; and along any run whose observed expiry stabilizes while check times
grow unboundedly, some check deletes the entry, so no stale entry is left
behind once extension stops. -/
theorem C3_watcher_expiry (st : LockState) (now : Nat) (page : String)
    (env : Nat → LockState) (times : Nat → Nat) (e k : Nat) :
    (now ≤ lookupExpiresZ st page → watcherStep now page st = (st, false)) ∧
    (lookupExpiresZ st page < now →
      watcherStep now page st = (removeLock st page, true) ∧
      (watcherStep now page st).1.locks page = none ∧
      (watcherStep now page st).1.lockExpires page = none) ∧
    ((∀ i, k ≤ i → lookupExpiresZ (env i) page = e) →
     (∀ B, ∃ i, k ≤ i ∧ B < times i) →
     ∃ i, k ≤ i ∧ (watcherStep (times i) page (env i)).2 = true ∧
       (watcherStep (times i) page (env i)).1.locks page = none ∧
       (watcherStep (times i) page (env i)).1.lockExpires page = none) := by
  refine ⟨?_, ?_, ?_⟩
  · intro h
    simp [watcherStep, Nat.not_lt.mpr h]
  · intro h
    simp [watcherStep, h, removeLock]
  · intro hstab hunb
    obtain ⟨i, hki, hBi⟩ := hunb e
    refine ⟨i, hki, ?_, ?_, ?_⟩
    · simp [watcherStep, hstab i hki, hBi]
    · simp [watcherStep, hstab i hki, hBi, removeLock]
    · simp [watcherStep, hstab i hki, hBi, removeLock]

/-- C3 witness: with `"p"`'s live expiry at `10`, a check at time `5`
changes nothing, and a check at time `11` deletes the entry. -/
theorem C3_watcher_expiry_w :
    watcherStep 5 "p" stA = (stA, false) ∧
    (watcherStep 11 "p" stA).1.locks "p" = none ∧
    (watcherStep 11 "p" stA).1.lockExpires "p" = none := by
  refine ⟨?_, ?_, ?_⟩
  · exact (C3_watcher_expiry stA 5 "p" (fun _ => stA) (fun i => i) 0 0).1 (by decide)
  · exact ((C3_watcher_expiry stA 11 "p" (fun _ => stA) (fun i => i) 0 0).2.1 (by decide)).2.1
  · exact ((C3_watcher_expiry stA 11 "p" (fun _ => stA) (fun i => i) 0 0).2.1 (by decide)).2.2

/-- C10: the two maps start with the same (empty) key set and every
critical section — `lockOrExtend`, `unlock`, and the watcher's check —
preserves agreement of the key sets, so no page is ever present in one map
but absent from the other. -/
theorem C10_maps_in_sync (now : Nat) (page : String) (lock : Token) :
    inSync emptyLS ∧
    ∀ st, inSync st →
      inSync (lockOrExtend now page lock st).2 ∧
      inSync (unlock page lock st).2 ∧
      inSync (watcherStep now page st).1 := by
  refine ⟨fun p => rfl, ?_⟩
  intro st h
  refine ⟨?_, ?_, ?_⟩
  · cases hc : st.locks page with
    | none => simpa [lockOrExtend, hc] using inSync_writeLock page lock (now + 60) h
    | some cur =>
      by_cases he : cur = lock
      · simpa [lockOrExtend, hc, he] using inSync_writeLock page lock (now + 60) h
      · simpa [lockOrExtend, hc, he] using h
  · cases hc : st.locks page with
    | none => simpa [unlock, hc] using inSync_removeLock page h
    | some cur =>
      by_cases he : cur = lock
      · simpa [unlock, hc, he] using inSync_removeLock page h
      · simpa [unlock, hc, he] using h
  · by_cases he : lookupExpiresZ st page < now
    · simpa [watcherStep, he] using inSync_removeLock page h
    · simpa [watcherStep, he] using h

/-- C10 witness: after acquiring, releasing, or expiring on the empty
table, the two maps agree at `"p"`. -/
theorem C10_maps_in_sync_w :
    ((lockOrExtend 0 "p" [65] emptyLS).2.locks "p").isSome =
      ((lockOrExtend 0 "p" [65] emptyLS).2.lockExpires "p").isSome ∧
    ((unlock "p" [65] emptyLS).2.locks "p").isSome =
      ((unlock "p" [65] emptyLS).2.lockExpires "p").isSome ∧
    ((watcherStep 0 "p" emptyLS).1.locks "p").isSome =
      ((watcherStep 0 "p" emptyLS).1.lockExpires "p").isSome := by
  refine ⟨?_, ?_, ?_⟩
  · exact (((C10_maps_in_sync 0 "p" [65]).2 emptyLS (fun p => rfl)).1) "p"
  · exact (((C10_maps_in_sync 0 "p" [65]).2 emptyLS (fun p => rfl)).2.1) "p"
  · exact (((C10_maps_in_sync 0 "p" [65]).2 emptyLS (fun p => rfl)).2.2) "p"

/-! ## Helper lemmas: resolver -/

theorem read_indep (base : String) (fs fs' : String → Option String) (name : String)
    (hagree : ∀ p, goStartsWith p (base ++ "/") = true → fs p = fs' p) :
    read base fs name = read base fs' name := by
  simp only [read]
  cases hb : goStartsWith (goJoin base name) (base ++ "/") with
  | false => simp [hb]
  | true => simp [hb, hagree _ hb]

theorem readExt_indep (base : String) (fs fs' : String → Option String) (name : String)
    (hagree : ∀ p, goStartsWith p (base ++ "/") = true → fs p = fs' p) :
    readExt base fs name = readExt base fs' name := by
  simp only [readExt, read_indep base fs fs' (name ++ ".md") hagree,
    read_indep base fs fs' (name ++ ".html") hagree,
    read_indep base fs fs' name hagree]

theorem read_ok_inside (base : String) (fs : String → Option String) (name : String)
    (c : String) (h : read base fs name = Except.ok c) :
    goStartsWith (goJoin base name) (base ++ "/") = true ∧
    fs (goJoin base name) = some c := by
  revert h
  simp only [read]
  cases hb : goStartsWith (goJoin base name) (base ++ "/") with
  | false => simp [hb]
  | true =>
    cases hf : fs (goJoin base name) with
    | none => simp [hb, hf]
    | some d => simp [hb, hf]

theorem isOkE_false_error (r : Except ReadError String) (h : isOkE r = false) :
    ∃ er, r = Except.error er := by
  cases r with
  | ok c => simp [isOkE] at h
  | error er => exact ⟨er, rfl⟩

/-! ## Resolver claims -/

/-- C1 (amended): resolution is sandboxed — the result depends on the
filesystem only at paths having the canonicalized root plus `'/'` as a
strict prefix; when the joined path lacks that prefix, `read` fails with
the traversal error; and a successful `read` means the joined path had the
prefix and was the single path consulted. -/
theorem C1_resolution_sandboxed (base : String) (fs fs' : String → Option String)
    (name : String)
    (hagree : ∀ p, goStartsWith p (base ++ "/") = true → fs p = fs' p) :
    read base fs name = read base fs' name ∧
    readExt base fs name = readExt base fs' name ∧
    (goStartsWith (goJoin base name) (base ++ "/") = false →
      read base fs name = Except.error (ReadError.traversal (goJoin base name))) ∧
    (∀ c, read base fs name = Except.ok c →
      goStartsWith (goJoin base name) (base ++ "/") = true ∧
      fs (goJoin base name) = some c) ∧
    (∀ c, readExt base fs name = Except.ok c →
      (goStartsWith (goJoin base (name ++ ".md")) (base ++ "/") = true ∧
        fs (goJoin base (name ++ ".md")) = some c) ∨
      (goStartsWith (goJoin base (name ++ ".html")) (base ++ "/") = true ∧
        fs (goJoin base (name ++ ".html")) = some c) ∨
      (goStartsWith (goJoin base name) (base ++ "/") = true ∧
        fs (goJoin base name) = some c)) := by
  refine ⟨read_indep base fs fs' name hagree, readExt_indep base fs fs' name hagree,
    ?_, fun c => read_ok_inside base fs name c, ?_⟩
  · intro hb
    simp [read, hb]
  · intro c
    simp only [readExt]
    cases h1 : read base fs (name ++ ".md") with
    | ok d =>
      intro hc
      injection hc with hdc
      subst hdc
      exact Or.inl (read_ok_inside base fs (name ++ ".md") d h1)
    | error e1 =>
      cases h2 : read base fs (name ++ ".html") with
      | ok d =>
        intro hc
        injection hc with hdc
        subst hdc
        exact Or.inr (Or.inl (read_ok_inside base fs (name ++ ".html") d h2))
      | error e2 =>
        intro hc
        exact Or.inr (Or.inr (read_ok_inside base fs name c hc))

/-- Filesystem containing exactly `/r/b`. -/
def fsB : String → Option String := fun p => if p = "/r/b" then some "B" else none

/-- C1 counterexample: the page name `"a/../b"` contains a `..` segment,
yet `read` and `readExt` succeed (the cleaned join stays inside the root)
instead of failing with a traversal error; likewise the absolute override
`"/b"` resolves inside the root. -/
theorem C1_resolution_sandboxed_counter :
    read "/r" fsB "a/../b" = Except.ok "B" ∧
    readExt "/r" fsB "a/../b" = Except.ok "B" ∧
    read "/r" fsB "/b" = Except.ok "B" := by
  refine ⟨by decide, by decide, by decide⟩

/-- C1 witness: on a concrete root and filesystem, the escaping name `".."`
is refused with the traversal error, and the successful read of `"b"`
consulted a path strictly inside the root. -/
theorem C1_resolution_sandboxed_w :
    read "/r" fsB ".." = Except.error (ReadError.traversal "/") ∧
    (goStartsWith (goJoin "/r" "b") ("/r" ++ "/") = true ∧
      fsB (goJoin "/r" "b") = some "B") := by
  constructor
  · exact (C1_resolution_sandboxed "/r" fsB fsB ".." (fun p _ => rfl)).2.2.1 (by decide)
  · exact (C1_resolution_sandboxed "/r" fsB fsB "b" (fun p _ => rfl)).2.2.2.1 "B" (by decide)

/-- C6: `readExt` returns the `.md` variant when it resolves, falls back
to the `.html` variant, then to the verbatim name; in particular when the
`.md` file exists in the root its contents win over any `.html` file. -/
theorem C6_fallback_order (base : String) (fs : String → Option String) (name : String) :
    (∀ c, read base fs (name ++ ".md") = Except.ok c →
      readExt base fs name = Except.ok c) ∧
    (∀ c, isOkE (read base fs (name ++ ".md")) = false →
      read base fs (name ++ ".html") = Except.ok c →
      readExt base fs name = Except.ok c) ∧
    (isOkE (read base fs (name ++ ".md")) = false →
      isOkE (read base fs (name ++ ".html")) = false →
      readExt base fs name = read base fs name) ∧
    (∀ c, goStartsWith (goJoin base (name ++ ".md")) (base ++ "/") = true →
      fs (goJoin base (name ++ ".md")) = some c →
      readExt base fs name = Except.ok c) := by
  have hmd : ∀ c, read base fs (name ++ ".md") = Except.ok c →
      readExt base fs name = Except.ok c := by
    intro c h
    simp [readExt, h]
  refine ⟨hmd, ?_, ?_, ?_⟩
  · intro c h1 h2
    obtain ⟨er, he⟩ := isOkE_false_error _ h1
    simp [readExt, he, h2]
  · intro h1 h2
    obtain ⟨er1, he1⟩ := isOkE_false_error _ h1
    obtain ⟨er2, he2⟩ := isOkE_false_error _ h2
    simp [readExt, he1, he2]
  · intro c hb hf
    exact hmd c (by simp [read, hb, hf])

/-- Filesystem with both `/r/foo.md` and `/r/foo.html`. -/
def fs6 : String → Option String :=
  fun p => if p = "/r/foo.md" then some "MD"
    else if p = "/r/foo.html" then some "HTML" else none

/-- C6 witness: with both `foo.md` and `foo.html` present,
`readExt "foo"` returns the Markdown contents. -/
theorem C6_fallback_order_w : readExt "/r" fs6 "foo" = Except.ok "MD" :=
  (C6_fallback_order "/r" fs6 "foo").2.2.2 "MD" (by decide) (by decide)

/-! ## Authentication claim -/

/-- C8 (amended): when `.auth` reads successfully, a request whose path is
not under `/.auth/` proceeds exactly when it carries a `nerka` cookie equal
to the trimmed contents of `.auth`, and otherwise is answered 403 with
body `"no"`; paths under `/.auth/` are exempt from the check. -/
theorem C8_auth_required (base : String) (fs : String → Option String)
    (urlPath : String) (cookie : Option String) (auth : String)
    (hpath : goStartsWith urlPath "/.auth/" = false)
    (hauth : read base fs ".auth" = Except.ok auth) :
    (authPhase base fs urlPath cookie = AuthOutcome.proceed ↔
      cookie = some (goTrimSpace auth)) ∧
    (cookie ≠ some (goTrimSpace auth) →
      authPhase base fs urlPath cookie = AuthOutcome.deny 403 "no") := by
  constructor
  · cases cookie with
    | none => simp [authPhase, hpath, hauth]
    | some v =>
      by_cases hv : v = goTrimSpace auth <;> simp [authPhase, hpath, hauth, hv]
  · intro hne
    cases cookie with
    | none => simp [authPhase, hpath, hauth]
    | some v =>
      have hv : ¬ v = goTrimSpace auth := fun he => hne (by rw [he])
      simp [authPhase, hpath, hauth, hv]

/-- Filesystem containing `.auth` with contents `" s\n"` in the root. -/
def fsA : String → Option String :=
  fun p => if p = "/r/.auth" then some " s\n" else none

/-- C8 counterexample: `.auth` exists, yet the request for `/.auth/t`
carrying no cookie is not answered 403 — it sets the cookie and redirects
with 303, refuting the claim for every request. -/
theorem C8_auth_required_counter :
    read "/r" fsA ".auth" = Except.ok " s\n" ∧
    authPhase "/r" fsA "/.auth/t" none = AuthOutcome.setCookie "t" 303 ∧
    authPhase "/r" fsA "/.auth/t" none ≠ AuthOutcome.deny 403 "no" := by
  refine ⟨by decide, by decide, by decide⟩

/-- C8 witness: outside `/.auth/`, the matching trimmed cookie proceeds
and a missing cookie is denied with 403 and body `"no"`. -/
theorem C8_auth_required_w :
    authPhase "/r" fsA "/x" (some "s") = AuthOutcome.proceed ∧
    authPhase "/r" fsA "/x" none = AuthOutcome.deny 403 "no" := by
  constructor
  · exact (C8_auth_required "/r" fsA "/x" (some "s") " s\n" (by decide)
      (by decide)).1.mpr (by decide)
  · exact (C8_auth_required "/r" fsA "/x" none " s\n" (by decide)
      (by decide)).2 (by decide)

/-! ## Helper lemmas: annotator -/

theorem str_pos_of_ne_empty {s : String} (h : s ≠ "") : 0 < s.length := by
  cases s with
  | mk d =>
    cases d with
    | nil => exact absurd rfl h
    | cons c t => simp [String.length]

theorem classifyLoop_no_href (parse : String → Option URLRef) (base : String)
    (fs : String → Option String) (urlPath : String) (attrs : List Attribute)
    (h : ∀ a ∈ attrs, a.key ≠ "href") :
    classifyLoop parse base fs urlPath attrs = (false, false) := by
  induction attrs with
  | nil => rfl
  | cons a t ih =>
    have ha : ¬ a.key = "href" := h a (List.mem_cons_self a t)
    simp only [classifyLoop, if_neg ha]
    exact ih (fun b hb => h b (List.mem_cons_of_mem a hb))

theorem classifyLoop_skip (parse : String → Option URLRef) (base : String)
    (fs : String → Option String) (urlPath : String) (pre rest : List Attribute)
    (h : ∀ a ∈ pre, a.key ≠ "href") :
    classifyLoop parse base fs urlPath (pre ++ rest) =
      classifyLoop parse base fs urlPath rest := by
  induction pre with
  | nil => rfl
  | cons a t ih =>
    have ha : ¬ a.key = "href" := h a (List.mem_cons_self a t)
    simp only [List.cons_append, classifyLoop, if_neg ha]
    exact ih (fun b hb => h b (List.mem_cons_of_mem a hb))

theorem classifyLoop_not_both (parse : String → Option URLRef) (base : String)
    (fs : String → Option String) (urlPath : String) (attrs : List Attribute) :
    classifyLoop parse base fs urlPath attrs ≠ (true, true) := by
  induction attrs with
  | nil => simp [classifyLoop]
  | cons a t ih =>
    by_cases ha : a.key = "href"
    · simp only [classifyLoop, if_pos ha]
      cases hp : parse a.val with
      | none => simp
      | some link =>
        simp only []
        split
        · simp
        · split
          · simp
          · exact ih
    · simp only [classifyLoop, if_neg ha]
      exact ih

theorem appendClassGo_none (cls : String) (attrs : List Attribute)
    (h : ∀ a ∈ attrs, a.key ≠ "class") : appendClassGo cls attrs = none := by
  induction attrs with
  | nil => rfl
  | cons a t ih =>
    have ha : ¬ a.key = "class" := h a (List.mem_cons_self a t)
    rw [appendClassGo, if_neg ha, ih (fun b hb => h b (List.mem_cons_of_mem a hb))]
    rfl

theorem appendClassGo_found (cls : String) (pre post : List Attribute) (a : Attribute)
    (hpre : ∀ b ∈ pre, b.key ≠ "class") (ha : a.key = "class") :
    appendClassGo cls (pre ++ a :: post) =
      some (pre ++ { a with val := a.val ++ (" " ++ cls) } :: post) := by
  induction pre with
  | nil => simp [appendClassGo, ha]
  | cons b t ih =>
    have hb : ¬ b.key = "class" := hpre b (List.mem_cons_self b t)
    rw [List.cons_append, appendClassGo, if_neg hb,
      ih (fun x hx => hpre x (List.mem_cons_of_mem b hx))]
    rfl

/-! ## Annotator claims -/

/-- C4: for an anchor whose single `href` fails to parse the
classification is broken; a nonempty host gives external with the
filesystem never consulted (the annotation is the same under any two
filesystems); otherwise the target relative to the current page's
directory decides between ordinary and broken; and no attribute list ever
yields both flags. -/
theorem C4_anchor_classification (parse : String → Option URLRef) (base : String)
    (fs fs' : String → Option String) (urlPath h : String)
    (pre post : List Attribute)
    (hpre : ∀ a ∈ pre, a.key ≠ "href") (hpost : ∀ a ∈ post, a.key ≠ "href") :
    (parse h = none →
      linkClass parse base fs urlPath (pre ++ { key := "href", val := h } :: post) =
        LinkClass.broken) ∧
    (∀ u, parse h = some u → u.host ≠ "" →
      linkClass parse base fs urlPath (pre ++ { key := "href", val := h } :: post) =
        LinkClass.external ∧
      annotateAnchor parse base fs urlPath (pre ++ { key := "href", val := h } :: post) =
        annotateAnchor parse base fs' urlPath (pre ++ { key := "href", val := h } :: post)) ∧
    (∀ u, parse h = some u → u.host = "" →
      linkClass parse base fs urlPath (pre ++ { key := "href", val := h } :: post) =
        (if (isOkE (readExt base fs (goJoinList [goDir urlPath, u.path])) ||
             isOkE (readExt base fs (goJoinList [goDir urlPath, u.path, "index"])))
         then LinkClass.ordinary else LinkClass.broken)) ∧
    (∀ attrs2, classifyLoop parse base fs urlPath attrs2 ≠ (true, true)) := by
  have hskip := classifyLoop_skip parse base fs urlPath pre
    ({ key := "href", val := h } :: post) hpre
  have hskip' := classifyLoop_skip parse base fs' urlPath pre
    ({ key := "href", val := h } :: post) hpre
  refine ⟨?_, ?_, ?_, fun attrs2 => classifyLoop_not_both parse base fs urlPath attrs2⟩
  · intro hparse
    rw [linkClass, hskip]
    simp [classifyLoop, hparse]
  · intro u hparse hhost
    have hcf : classifyLoop parse base fs urlPath
        (pre ++ { key := "href", val := h } :: post) = (false, true) := by
      rw [hskip]
      simp [classifyLoop, hparse, str_pos_of_ne_empty hhost]
    have hcf' : classifyLoop parse base fs' urlPath
        (pre ++ { key := "href", val := h } :: post) = (false, true) := by
      rw [hskip']
      simp [classifyLoop, hparse, str_pos_of_ne_empty hhost]
    constructor
    · rw [linkClass, hcf]
    · rw [annotateAnchor, annotateAnchor, hcf, hcf']
  · intro u hparse hhost
    have hlen0 : u.host.length = 0 := by rw [hhost]; rfl
    rw [linkClass, hskip]
    have hrest := classifyLoop_no_href parse base fs urlPath post hpost
    cases hx : isOkE (readExt base fs (goJoinList [goDir urlPath, u.path])) <;>
      cases hy : isOkE (readExt base fs (goJoinList [goDir urlPath, u.path, "index"])) <;>
      simp [classifyLoop, hparse, hlen0, hx, hy, hrest]

/-- Parser stubs and filesystems for the annotator's concrete checks. -/
def parse0 : String → Option URLRef := fun s => some { host := "", path := s }

def parseE : String → Option URLRef := fun s => some { host := "h", path := s }

def parseN : String → Option URLRef := fun _ => none

def fs0 : String → Option String := fun _ => none

def fsOrd : String → Option String := fun p => if p = "/r/x.md" then some "X" else none

def preW : List Attribute := [{ key := "id", val := "z" }]

/-- C4 witness: a failing parse is broken, a host-bearing href is
external, a resolvable sibling is ordinary, an unresolvable one broken. -/
theorem C4_anchor_classification_w :
    linkClass parseN "/r" fs0 "/p" (preW ++ { key := "href", val := "x" } :: []) =
      LinkClass.broken ∧
    linkClass parseE "/r" fs0 "/p" (preW ++ { key := "href", val := "x" } :: []) =
      LinkClass.external ∧
    linkClass parse0 "/r" fsOrd "/p" (preW ++ { key := "href", val := "x" } :: []) =
      LinkClass.ordinary ∧
    linkClass parse0 "/r" fs0 "/p" (preW ++ { key := "href", val := "x" } :: []) =
      LinkClass.broken := by
  refine ⟨?_, ?_, ?_, ?_⟩
  · exact (C4_anchor_classification parseN "/r" fs0 fs0 "/p" "x" preW []
      (by decide) (by decide)).1 rfl
  · exact ((C4_anchor_classification parseE "/r" fs0 fs0 "/p" "x" preW []
      (by decide) (by decide)).2.1 { host := "h", path := "x" } rfl (by decide)).1
  · exact (C4_anchor_classification parse0 "/r" fsOrd fsOrd "/p" "x" preW []
      (by decide) (by decide)).2.2.1 { host := "", path := "x" } rfl rfl
  · exact (C4_anchor_classification parse0 "/r" fs0 fs0 "/p" "x" preW []
      (by decide) (by decide)).2.2.1 { host := "", path := "x" } rfl rfl

/-- C7 (amended): the annotator appends the class token to the first
`class` attribute's value with a separating space (creating the attribute
at the end when absent) and leaves every other attribute untouched; the
append is unconditional, so a token already present is appended again —
the annotator is not idempotent. -/
theorem C7_class_append (cls : String) (attrs : List Attribute)
    (parse : String → Option URLRef) (base : String) (fs : String → Option String)
    (urlPath : String) :
    ((∀ a ∈ attrs, a.key ≠ "class") →
      addClassGo cls attrs = attrs ++ [{ key := "class", val := cls }]) ∧
    (∀ pre a post, attrs = pre ++ a :: post → (∀ b ∈ pre, b.key ≠ "class") →
      a.key = "class" →
      addClassGo cls attrs =
        pre ++ { key := "class", val := a.val ++ (" " ++ cls) } :: post) ∧
    (classifyLoop parse base fs urlPath attrs = (true, false) →
      annotateAnchor parse base fs urlPath attrs = addClassGo "broken-link" attrs) ∧
    (classifyLoop parse base fs urlPath attrs = (false, true) →
      annotateAnchor parse base fs urlPath attrs = addClassGo "external-link" attrs) ∧
    (classifyLoop parse base fs urlPath attrs = (false, false) →
      annotateAnchor parse base fs urlPath attrs = attrs) := by
  refine ⟨?_, ?_, ?_, ?_, ?_⟩
  · intro h
    rw [addClassGo, appendClassGo_none cls attrs h]
    rfl
  · intro pre a post hsplit hpre ha
    subst hsplit
    rw [addClassGo, appendClassGo_found cls pre post a hpre ha]
    have hrec : ({ a with val := a.val ++ (" " ++ cls) } : Attribute) =
        { key := "class", val := a.val ++ (" " ++ cls) } := by
      cases a
      simp_all
    rw [Option.getD_some, hrec]
  · intro h
    rw [annotateAnchor, h]
    rfl
  · intro h
    rw [annotateAnchor, h]
    rfl
  · intro h
    rw [annotateAnchor, h]
    rfl

/-- An anchor with a single dangling href. -/
def attrsX : List Attribute := [{ key := "href", val := "x" }]

/-- C7 counterexample: annotating a dangling anchor adds
`class="broken-link"`; annotating the result again appends the token a
second time, duplicating it — re-running the annotator is not idempotent. -/
theorem C7_class_append_counter :
    annotateAnchor parse0 "/r" fs0 "/p" attrsX =
      [{ key := "href", val := "x" }, { key := "class", val := "broken-link" }] ∧
    annotateAnchor parse0 "/r" fs0 "/p" (annotateAnchor parse0 "/r" fs0 "/p" attrsX) =
      [{ key := "href", val := "x" },
       { key := "class", val := "broken-link broken-link" }] ∧
    annotateAnchor parse0 "/r" fs0 "/p" (annotateAnchor parse0 "/r" fs0 "/p" attrsX) ≠
      annotateAnchor parse0 "/r" fs0 "/p" attrsX := by
  refine ⟨by decide, by decide, by decide⟩

/-- C7 witness: with no `class` attribute the token becomes a fresh
attribute; with one present the token is appended after a space. -/
theorem C7_class_append_w :
    addClassGo "broken-link" attrsX =
      attrsX ++ [{ key := "class", val := "broken-link" }] ∧
    addClassGo "external-link" [{ key := "class", val := "c" }] =
      [{ key := "class", val := "c external-link" }] := by
  constructor
  · exact (C7_class_append "broken-link" attrsX parse0 "/r" fs0 "/p").1 (by decide)
  · exact (C7_class_append "external-link" [{ key := "class", val := "c" }]
      parse0 "/r" fs0 "/p").2.1 [] { key := "class", val := "c" } [] rfl
      (by decide) rfl

/-! ## Helper lemmas: path strings -/

theorem cleanStep_nil_seg (r : Bool) (acc : List (List Char)) :
    cleanStep r acc [] = acc := by
  simp [cleanStep]

theorem splitSlashAux_append (xs : List Char) :
    ∀ (cur ys : List Char),
      splitSlashAux (xs ++ '/' :: ys) cur =
        splitSlashAux xs cur ++ splitSlashAux ys [] := by
  induction xs with
  | nil =>
    intro cur ys
    simp [splitSlashAux]
  | cons c t ih =>
    intro cur ys
    by_cases hc : c = '/' <;> simp [splitSlashAux, hc, ih]

theorem foldl_cleanStep_mid (r : Bool) (S1 S2 : List (List Char))
    (acc : List (List Char)) :
    List.foldl (cleanStep r) acc (S1 ++ [] :: S2) =
      List.foldl (cleanStep r) acc (S1 ++ S2) := by
  simp [List.foldl_append, List.foldl_cons, cleanStep_nil_seg]

theorem foldl_cleanStep_last (r : Bool) (S1 : List (List Char))
    (acc : List (List Char)) :
    List.foldl (cleanStep r) acc (S1 ++ [[]]) = List.foldl (cleanStep r) acc S1 := by
  simp [List.foldl_append, cleanStep_nil_seg]

theorem isRooted_append (xs ys : List Char) (h : xs ≠ []) :
    isRooted (xs ++ ys) = isRooted xs := by
  cases xs with
  | nil => exact absurd rfl h
  | cons c t => rfl

theorem data_ne_nil {a : String} (h : a ≠ "") : a.data ≠ [] := by
  intro hd
  apply h
  cases a with
  | mk d =>
    simp only at hd
    subst hd
    rfl

theorem cleanL_extra_slash (xs ys : List Char) (h : xs ≠ []) :
    cleanL (xs ++ '/' :: '/' :: ys) = cleanL (xs ++ '/' :: ys) := by
  have h1 : ¬ (xs ++ '/' :: '/' :: ys = []) := by simp
  have h2 : ¬ (xs ++ '/' :: ys = []) := by simp
  simp only [cleanL, if_neg h1, if_neg h2, isRooted_append _ _ h,
    splitSlashAux_append]
  simp [splitSlashAux, foldl_cleanStep_mid, cleanStep_nil_seg]

theorem cleanL_trailing_slash (xs : List Char) (h : xs ≠ []) :
    cleanL (xs ++ ['/']) = cleanL xs := by
  have h1 : ¬ (xs ++ ['/'] = []) := by simp
  simp only [cleanL, if_neg h1, if_neg h, isRooted_append _ _ h,
    splitSlashAux_append]
  simp [splitSlashAux, foldl_cleanStep_last, cleanStep_nil_seg]

theorem goJoin_slash_absorb (a b : String) (ha : a ≠ "") :
    goJoin a ("/" ++ b) = goJoin a b := by
  have hbeq : (a == "") = false := beq_eq_false_iff_ne.mpr ha
  have hda := data_ne_nil ha
  simp only [goJoin, goJoinList, List.dropWhile_cons, hbeq, Bool.false_eq_true,
    if_false]
  show clean (a ++ ("/" ++ ("/" ++ b))) = clean (a ++ ("/" ++ b))
  simp only [clean]
  have hd1 : (a ++ ("/" ++ ("/" ++ b))).data = a.data ++ '/' :: '/' :: b.data := by
    simp [String.data_append]
  have hd2 : (a ++ ("/" ++ b)).data = a.data ++ '/' :: b.data := by
    simp [String.data_append]
  rw [hd1, hd2, cleanL_extra_slash _ _ hda]

theorem goJoin_empty_clean (base : String) (hclean : clean base = base)
    (hne : base ≠ "") : goJoin base "" = base := by
  have hbeq : (base == "") = false := beq_eq_false_iff_ne.mpr hne
  have hda := data_ne_nil hne
  simp only [goJoin, goJoinList, List.dropWhile_cons, hbeq, Bool.false_eq_true,
    if_false]
  show clean (base ++ ("/" ++ "")) = base
  have hd : (base ++ ("/" ++ "")).data = base.data ++ ['/'] := by
    simp [String.data_append]
  rw [clean, hd, cleanL_trailing_slash _ hda]
  exact hclean

theorem goStartsWith_self_slash (s : String) :
    goStartsWith s (s ++ "/") = false := by
  rw [goStartsWith]
  cases hb : (s ++ "/").data.isPrefixOf s.data with
  | false => rfl
  | true =>
    exfalso
    have h2 := List.isPrefixOf_iff_prefix.mp hb
    have h3 := h2.length_le
    rw [String.data_append] at h3
    simp at h3

theorem read_eq_of_join_eq (base : String) (fs : String → Option String)
    (n1 n2 : String) (h : goJoin base n1 = goJoin base n2) :
    read base fs n1 = read base fs n2 := by
  simp [read, h]

/-! ## Empty-name claim -/

/-- C9 (amended): the literal empty page name does not resolve to the
root's index — with no `".md"`/`".html"` file at the root,
`readExt base fs ""` fails with the traversal error on the bare root
path; the root's index page is instead served for the directory request
`"/"`, which the handler resolves with extension fallback on `"/index"`,
and that resolves identically to `"index"` at the root. -/
theorem C9_empty_name (base : String) (fs : String → Option String)
    (hclean : clean base = base) (hne : base ≠ "") :
    (isOkE (read base fs ".md") = false →
      isOkE (read base fs ".html") = false →
      readExt base fs "" = Except.error (ReadError.traversal base)) ∧
    resolvePage base fs "/" = readExt base fs "/index" ∧
    readExt base fs "/index" = readExt base fs "index" := by
  refine ⟨?_, ?_, ?_⟩
  · intro h1 h2
    obtain ⟨er1, he1⟩ := isOkE_false_error _ h1
    obtain ⟨er2, he2⟩ := isOkE_false_error _ h2
    have e1 : ("" : String) ++ ".md" = ".md" := rfl
    have e2 : ("" : String) ++ ".html" = ".html" := rfl
    have hj : goJoin base "" = base := goJoin_empty_clean base hclean hne
    have hread : read base fs "" = Except.error (ReadError.traversal base) := by
      rw [read]
      simp only [hj, goStartsWith_self_slash, Bool.false_eq_true, if_false]
    rw [readExt, e1, e2, he1, he2, hread]
  · have hdir : goEndsWith "/" "/" = true := rfl
    have hj : goJoin "/" "index" = "/index" := by decide
    rw [resolvePage, if_pos hdir, hj]
  · have hmd : read base fs ("/index" ++ ".md") = read base fs ("index" ++ ".md") := by
      refine read_eq_of_join_eq base fs _ _ ?_
      rw [show ("/index" : String) ++ ".md" = "/" ++ ("index" ++ ".md") from rfl,
        goJoin_slash_absorb _ _ hne]
    have hhtml : read base fs ("/index" ++ ".html") =
        read base fs ("index" ++ ".html") := by
      refine read_eq_of_join_eq base fs _ _ ?_
      rw [show ("/index" : String) ++ ".html" = "/" ++ ("index" ++ ".html") from rfl,
        goJoin_slash_absorb _ _ hne]
    have hplain : read base fs "/index" = read base fs "index" := by
      refine read_eq_of_join_eq base fs _ _ ?_
      rw [show ("/index" : String) = "/" ++ "index" from rfl,
        goJoin_slash_absorb _ _ hne]
    rw [readExt, readExt, hmd, hhtml, hplain]

/-- Filesystem containing exactly `/r/index.md`. -/
def fsI : String → Option String :=
  fun p => if p = "/r/index.md" then some "IDX" else none

/-- C9 counterexample: with the root's index present, resolution with
extension fallback on the empty name fails with a traversal error on the
bare root path while `"index"` at the root succeeds — the empty name does
not resolve to the root's index. -/
theorem C9_empty_name_counter :
    readExt "/r" fsI "" = Except.error (ReadError.traversal "/r") ∧
    readExt "/r" fsI "index" = Except.ok "IDX" ∧
    readExt "/r" fsI "" ≠ readExt "/r" fsI "index" := by
  refine ⟨by decide, by decide, by decide⟩

/-- C9 witness: on a concrete root, the empty name fails while the
handler's `"/"` request resolves the root's index. -/
theorem C9_empty_name_w :
    readExt "/r" fsI "" = Except.error (ReadError.traversal "/r") ∧
    resolvePage "/r" fsI "/" = readExt "/r" fsI "/index" ∧
    readExt "/r" fsI "/index" = readExt "/r" fsI "index" := by
  refine ⟨?_, ?_, ?_⟩
  · exact (C9_empty_name "/r" fsI (by decide) (by decide)).1 (by decide) (by decide)
  · exact (C9_empty_name "/r" fsI (by decide) (by decide)).2.1
  · exact (C9_empty_name "/r" fsI (by decide) (by decide)).2.2

end Nerka
